import Mathlib

/-!
Shallow embedding of the record data model and the epoch-indexed
transformation engine of the `rinex` crate (`src/rinex/src/lib.rs`):
merge, split, decimation, the LLI/SSI filters and the derived-observable
scans, together with the merge-marker comment machinery.

Records are `BTreeMap`s in the source; epochs are totally ordered by their
`date` alone (the `epoch` module is not part of the sources at hand; its
ordering is modelled from the spec, §3: "Ordering is total, derived from
`date` alone").  A record is therefore embedded as an association list
strictly sorted by date, and every `BTreeMap::retain` / iteration is a
left-to-right sweep over that list.  Calendar timestamps are embedded as
integer second counts.  Rust functions that can panic (`unwrap` on a
mismatched record variant, indexing `epochs()[0]` on an empty record,
`todo!`/`unreachable!` arms) are embedded as `Option`-returning functions
where `none` is the panic.
-/

/-- Calendar timestamp at second resolution (`chrono::NaiveDateTime`),
embedded as a count of seconds; only ordering and second-differences are
used by the engine. -/
abbrev Date := Int

/-- `epoch::Epoch`: a timestamp plus a recording-quality flag.  The flag
enum is embedded as a `Nat` tag with `0` the "Ok" value. -/
structure Epoch where
  date : Date
  flag : Nat
deriving DecidableEq

/-- `epoch::EpochFlag::is_ok`. -/
def Epoch.flagIsOk (e : Epoch) : Bool := e.flag = 0

/-- `sv::Sv`: a satellite identified by constellation + prn; the
constellation enum is embedded as a `Nat` tag. -/
structure Sv where
  constellation : Nat
  prn : Nat
deriving DecidableEq

/-- `observation::record::ObservationData`: raw value plus the optional
LLI bitflags and optional SSI.  `f64` values are embedded as exact
rationals; LLI bitflags as a `Nat` bit set; the SSI enum as its `Nat`
discriminant (its `Ord` is the numeric order). -/
structure ObservationData where
  obs : ℚ
  lli : Option Nat
  ssi : Option Nat
deriving DecidableEq

/-- Observation record payload at one epoch: optional receiver clock
offset, then per-vehicle per-code data. -/
abbrev ObsEpochValue := Option ℚ × List (Sv × List (String × ObservationData))

/-- `navigation::record::FrameClass`. -/
inductive FrameClass
  | Ephemeris
  | SystemTimeOffset
  | IonosphericModel
  | EarthOrientation
deriving DecidableEq

/-- An Ephemeris frame: message type, vehicle, clock offset / drift /
drift-rate triple (auxiliary field map elided: no claim touches it). -/
structure EphFrame where
  msgtype : String
  sv : Sv
  clk : ℚ
  clkDr : ℚ
  clkDrr : ℚ
deriving DecidableEq

/-- `navigation::record::Frame` variants (payloads beyond Ephemeris are
opaque to every operation treated here). -/
inductive Frame
  | eph (f : EphFrame)
  | sto (system : String)
  | ion (kind : Nat)
  | eop
deriving DecidableEq

abbrev NavEpochValue := List (FrameClass × List Frame)
abbrev MeteoEpochValue := List (String × ℚ)
abbrev ClockEpochValue := List (String × List (String × ℚ))
/-- IONEX payload: a TEC grid, opaque to the core beyond epoch-keyed
retention (spec §3). -/
abbrev IonexEpochValue := List ℚ
/-- ANTEX payload: antenna-id keyed calibration entries, no temporal key. -/
abbrev AntexEntry := String × ℚ

/-- `record::Record`: the closed set of payload variants. -/
inductive Record
  | obsR (r : List (Epoch × ObsEpochValue))
  | navR (r : List (Epoch × NavEpochValue))
  | meteoR (r : List (Epoch × MeteoEpochValue))
  | clockR (r : List (Epoch × ClockEpochValue))
  | ionexR (r : List (Epoch × IonexEpochValue))
  | antexR (r : List AntexEntry)

/-- `types::Type`. -/
inductive RinexType
  | ObservationData
  | NavigationData
  | MeteoData
  | ClockData
  | IonosphereMaps
  | AntennaData
deriving DecidableEq

/-- Modelled from the spec: the full `header::Header` (the in-repo copy of
`header.rs` predates the merge machinery and carries no comment list).
Only the fields the core consumes are kept (spec §6): the record type, the
header comment list and the constellation tag. -/
structure Header where
  rinexType : RinexType
  comments : List String
  constellation : Option Nat
deriving DecidableEq

/-- `record::Comments`: the record-section comment ledger, a multi-map
from epochs to free text. -/
abbrev Comments := List (Epoch × List String)

/-- The `Rinex` container. -/
structure Rinex where
  header : Header
  comments : Comments
  record : Record

/-- `Record::as_obs` and friends collapse to this check: the header's
declared type matches the record's active variant, so that the
`as_X().unwrap()` calls of the engine cannot panic. -/
def Rinex.typeMatches (r : Rinex) : Bool :=
  match r.header.rinexType, r.record with
  | .ObservationData, .obsR _ => true
  | .NavigationData, .navR _ => true
  | .MeteoData, .meteoR _ => true
  | .ClockData, .clockR _ => true
  | .IonosphereMaps, .ionexR _ => true
  | .AntennaData, .antexR _ => true
  | _, _ => false

/-- The epoch keys of a record, in storage (ascending-date) order;
the Antenna variant has no temporal key. -/
def Record.epochKeys : Record → List Epoch
  | .obsR r => r.map Prod.fst
  | .navR r => r.map Prod.fst
  | .meteoR r => r.map Prod.fst
  | .clockR r => r.map Prod.fst
  | .ionexR r => r.map Prod.fst
  | .antexR _ => []

/-- Number of (top-level) entries of a record. -/
def Record.entryCount : Record → Nat
  | .obsR r => r.length
  | .navR r => r.length
  | .meteoR r => r.length
  | .clockR r => r.length
  | .ionexR r => r.length
  | .antexR r => r.length

/-- A record is empty when its top-level map/list is. -/
def Record.isEmptyRec (r : Record) : Bool := r.entryCount = 0

/-- The BTreeMap invariant: epoch keys strictly ascending by date. -/
def Record.datesSorted (r : Record) : Prop :=
  r.epochKeys.Chain' (fun a b => a.date < b.date)

/-- `Rinex::epochs` (lib.rs:654): collects the epoch keys for the four
epoch-indexed variants; panics (`none`) on Clock and Antenna types and on
a header-type / record-variant mismatch. -/
def Rinex.epochs (r : Rinex) : Option (List Epoch) :=
  match r.header.rinexType, r.record with
  | .ObservationData, .obsR rec => some (rec.map Prod.fst)
  | .NavigationData, .navR rec => some (rec.map Prod.fst)
  | .MeteoData, .meteoR rec => some (rec.map Prod.fst)
  | .IonosphereMaps, .ionexR rec => some (rec.map Prod.fst)
  | _, _ => none

/-- The counter-driven sweep shared by every arm of
`Rinex::decimate_by_ratio_mut` (lib.rs:1912): `retain` visits entries in
storage order and keeps exactly those whose running counter is a multiple
of the ratio.  (With ratio `0` the source divides by zero; the claims
about this operation assume a ratio of at least 1.) -/
def decimList (n : Nat) : Nat → List α → List α
  | _, [] => []
  | c, x :: t => if c % n = 0 then x :: decimList n (c + 1) t else decimList n (c + 1) t

/-- `Rinex::decimate_by_ratio_mut` (lib.rs:1912): applies the counter
sweep to whichever of the six variants is active; `none` is the
`as_mut_X().unwrap()` panic on a type/variant mismatch. -/
def Rinex.decimateByRatioMut (r : Rinex) (n : Nat) : Option Rinex :=
  match r.header.rinexType, r.record with
  | .NavigationData, .navR rec => some { r with record := .navR (decimList n 0 rec) }
  | .ObservationData, .obsR rec => some { r with record := .obsR (decimList n 0 rec) }
  | .MeteoData, .meteoR rec => some { r with record := .meteoR (decimList n 0 rec) }
  | .ClockData, .clockR rec => some { r with record := .clockR (decimList n 0 rec) }
  | .IonosphereMaps, .ionexR rec => some { r with record := .ionexR (decimList n 0 rec) }
  | .AntennaData, .antexR rec => some { r with record := .antexR (decimList n 0 rec) }
  | _, _ => none

/-- Spec-side selection: the entries at ordinal positions 0, n, 2n, …
(`i % n = 0` over the position enumeration). -/
def everyNthSpec (n : Nat) (l : List α) : List α :=
  (l.enum.filterMap (fun p => if p.1 % n = 0 then some p.2 else none))

/-- Spec-side selection lifted to the record variants. -/
def Record.everyNthRec (rec : Record) (n : Nat) : Record :=
  match rec with
  | .obsR r => .obsR (everyNthSpec n r)
  | .navR r => .navR (everyNthSpec n r)
  | .meteoR r => .meteoR (everyNthSpec n r)
  | .clockR r => .clockR (everyNthSpec n r)
  | .ionexR r => .ionexR (everyNthSpec n r)
  | .antexR r => .antexR (everyNthSpec n r)

theorem decimList_eq_enumFrom_filterMap (n : Nat) (l : List α) :
    ∀ c, decimList n c l =
      (l.enumFrom c).filterMap (fun p => if p.1 % n = 0 then some p.2 else none) := by
  induction l with
  | nil => intro c; rfl
  | cons x t ih =>
    intro c
    simp only [decimList, List.enumFrom, List.filterMap_cons]
    by_cases h : c % n = 0
    · simp [h, ih (c + 1)]
    · simp [h, ih (c + 1)]

theorem decimList_zero_eq_everyNthSpec (n : Nat) (l : List α) :
    decimList n 0 l = everyNthSpec n l := by
  rw [everyNthSpec, List.enum, decimList_eq_enumFrom_filterMap]

theorem decimList_mod (n : Nat) (l : List α) :
    ∀ c, decimList n c l = decimList n (c % n) l := by
  induction l with
  | nil => intro c; rfl
  | cons x t ih =>
    intro c
    have hmod : c % n % n = c % n := Nat.mod_mod_of_dvd c dvd_rfl
    have hstep : (c + 1) % n = (c % n + 1) % n := by
      rw [Nat.add_mod c 1 n, Nat.add_mod (c % n) 1 n, hmod]
    simp only [decimList, hmod]
    rw [ih (c + 1), ih (c % n + 1), hstep]

theorem decimList_shift (n : Nat) (hn : 1 ≤ n) (l : List α) :
    ∀ c, 1 ≤ c → c ≤ n → decimList n c l = decimList n 0 (l.drop (n - c)) := by
  induction l with
  | nil => intro c _ _; simp [decimList]
  | cons x t ih =>
    intro c hc1 hcn
    by_cases hceq : c = n
    · rw [hceq]
      simp only [Nat.sub_self, List.drop_zero]
      have h1 : decimList n n (x :: t) = x :: decimList n (n + 1) t := by
        simp [decimList, Nat.mod_self]
      have h2 : decimList n 0 (x :: t) = x :: decimList n 1 t := by
        simp [decimList]
      rw [h1, h2]
      congr 1
      rw [decimList_mod n t (n + 1), Nat.add_mod_left n 1, ← decimList_mod n t 1]
    · have hclt : c < n := lt_of_le_of_ne hcn hceq
      have hcne : ¬ c % n = 0 := by
        rw [Nat.mod_eq_of_lt hclt]; omega
      have h1 : decimList n c (x :: t) = decimList n (c + 1) t := by
        simp [decimList, hcne]
      have hsub : n - c = (n - c - 1) + 1 := by omega
      have hdrop : (x :: t).drop (n - c) = t.drop (n - c - 1) := by
        conv_lhs => rw [hsub]
        rw [List.drop_succ_cons]
      have harg : n - (c + 1) = n - c - 1 := by omega
      rw [h1, ih (c + 1) (by omega) (by omega), hdrop, harg]

theorem decimList_length (n : Nat) (hn : 1 ≤ n) :
    ∀ l : List α, (decimList n 0 l).length = (l.length + n - 1) / n := by
  have key : ∀ (L : Nat) (l : List α), l.length ≤ L →
      (decimList n 0 l).length = (l.length + n - 1) / n := by
    intro L
    induction L with
    | zero =>
      intro l hl
      match l with
      | [] =>
        simp only [decimList, List.length_nil]
        exact (Nat.div_eq_of_lt (by omega)).symm
    | succ L ihL =>
      intro l hl
      match l with
      | [] =>
        simp only [decimList, List.length_nil]
        exact (Nat.div_eq_of_lt (by omega)).symm
      | x :: t =>
        have h1 : decimList n 0 (x :: t) = x :: decimList n 1 t := by
          simp [decimList]
        rw [h1, List.length_cons, List.length_cons,
          decimList_shift n hn t 1 le_rfl hn]
        have hlen : (t.drop (n - 1)).length = t.length - (n - 1) :=
          List.length_drop _ _
        have hrec := ihL (t.drop (n - 1)) (by rw [hlen]; simp at hl; omega)
        rw [hrec, hlen]
        rcases Nat.lt_or_ge t.length (n - 1) with hsmall | hbig
        · have e1 : t.length - (n - 1) = 0 := by omega
          rw [e1]
          have e2 : (0 + n - 1) / n = 0 := Nat.div_eq_of_lt (by omega)
          rw [e2]
          have e3 : t.length + 1 + n - 1 = t.length + n := by omega
          rw [e3, Nat.add_div_right _ (by omega), Nat.div_eq_of_lt (by omega)]
        · have e1 : t.length - (n - 1) + n - 1 = t.length := by omega
          rw [e1]
          have e3 : t.length + 1 + n - 1 = t.length + n := by omega
          rw [e3, Nat.add_div_right _ (by omega)]
  intro l
  exact key l.length l le_rfl

/-- The claimed ceiling count, named for readability in the statements. -/
def ceilDiv (a n : Nat) : Nat := (a + n - 1) / n

/-- C8: `decimate_by_ratio(n)` on any of the six variants retains exactly
the entries at ordinal positions 0, n, 2n, … — that is, exactly
ceil(L/n) entries — independently of timestamp spacing. -/
theorem c8_decimate_ordinal_positions (r : Rinex) (n : Nat)
    (hw : r.typeMatches = true) (hn : 1 ≤ n) :
    ∃ r1, r.decimateByRatioMut n = some r1
      ∧ r1.record = r.record.everyNthRec n
      ∧ r1.record.entryCount = ceilDiv r.record.entryCount n := by
  obtain ⟨⟨ty, hcm, hcon⟩, rc, rec⟩ := r
  cases ty <;> cases rec <;>
    first
    | exact ⟨_, rfl,
        by simp [Record.everyNthRec, ← decimList_zero_eq_everyNthSpec],
        by simp [Record.entryCount, ceilDiv, decimList_length n hn]⟩
    | simp [Rinex.typeMatches] at hw

/-- Concrete instantiation of the ratio-decimation theorem: a five-entry
Meteo record decimated by 2 keeps positions 0, 2, 4. -/
theorem c8_decimate_ordinal_positions_witness :
    ∃ r1, (Rinex.mk ⟨.MeteoData, [], none⟩ []
        (.meteoR [(⟨0, 0⟩, []), (⟨10, 0⟩, []), (⟨20, 0⟩, []),
          (⟨30, 0⟩, []), (⟨40, 0⟩, [])])).decimateByRatioMut 2 = some r1
      ∧ r1.record = (Record.meteoR [(⟨0, 0⟩, []), (⟨10, 0⟩, []), (⟨20, 0⟩, []),
          (⟨30, 0⟩, []), (⟨40, 0⟩, [])]).everyNthRec 2
      ∧ r1.record.entryCount = ceilDiv (Record.meteoR [(⟨0, 0⟩, []), (⟨10, 0⟩, []),
          (⟨20, 0⟩, []), (⟨30, 0⟩, []), (⟨40, 0⟩, [])]).entryCount 2 :=
  c8_decimate_ordinal_positions _ 2 rfl (by decide)

/-- The doubly nested per-entry `retain` sweep shared verbatim by
`Rinex::lli_filter_mut` (lib.rs:1164) and
`Rinex::minimum_sig_strength_filter_mut` (lib.rs:1217): for every epoch
and vehicle, keep exactly the observations satisfying the predicate. -/
def obsDataFilter (p : ObservationData → Bool)
    (rec : List (Epoch × ObsEpochValue)) : List (Epoch × ObsEpochValue) :=
  rec.map (fun ev => (ev.1, (ev.2.1, ev.2.2.map (fun svo =>
    (svo.1, svo.2.filter (fun cd => p cd.2))))))

/-- The LLI AND-mask predicate of `lli_filter_mut`: keep data carrying an
LLI bitflag that intersects the mask (`LliFlags::intersects`); data with
no LLI attached is dropped. -/
def keepLli (mask : Nat) (d : ObservationData) : Bool :=
  match d.lli with
  | some l => decide (Nat.land l mask ≠ 0)
  | none => false

/-- The SSI predicate of `minimum_sig_strength_filter_mut`: keep data
whose SSI is present and strictly greater than the minimum. -/
def keepSsi (minimum : Nat) (d : ObservationData) : Bool :=
  match d.ssi with
  | some s => decide (minimum < s)
  | none => false

/-- `Rinex::lli_filter_mut` (lib.rs:1164): no-op on non-observation
types; `none` is the `as_mut_obs().unwrap()` panic on a type/variant
mismatch. -/
def Rinex.lliFilterMut (r : Rinex) (mask : Nat) : Option Rinex :=
  if r.header.rinexType = .ObservationData then
    match r.record with
    | .obsR rec => some { r with record := .obsR (obsDataFilter (keepLli mask) rec) }
    | _ => none
  else some r

/-- `Rinex::minimum_sig_strength_filter_mut` (lib.rs:1217). -/
def Rinex.minimumSigStrengthFilterMut (r : Rinex) (minimum : Nat) : Option Rinex :=
  if r.header.rinexType = .ObservationData then
    match r.record with
    | .obsR rec => some { r with record := .obsR (obsDataFilter (keepSsi minimum) rec) }
    | _ => none
  else some r

/-- Flattened view of an observation record: all
(epoch, vehicle, code, data) observation entries it holds. -/
def obsEntries (rec : List (Epoch × ObsEpochValue)) :
    List (Epoch × Sv × String × ObservationData) :=
  rec.flatMap (fun ev => ev.2.2.flatMap (fun svo =>
    svo.2.map (fun cd => (ev.1, svo.1, cd.1, cd.2))))

theorem obsCodes_filter_map_comm (p : ObservationData → Bool) (e : Epoch) (sv : Sv) :
    ∀ obs : List (String × ObservationData),
      (obs.filter (fun cd => p cd.2)).map (fun cd => (e, sv, cd.1, cd.2)) =
        (obs.map (fun cd => (e, sv, cd.1, cd.2))).filter (fun x => p x.2.2.2) := by
  intro obs
  induction obs with
  | nil => rfl
  | cons cd t ih =>
    by_cases h : p cd.2
    · simp [List.filter_cons, h, ih]
    · simp [List.filter_cons, h, ih]

theorem obsSvs_filter_flatMap_comm (p : ObservationData → Bool) (e : Epoch) :
    ∀ svs : List (Sv × List (String × ObservationData)),
      ((svs.map (fun svo => (svo.1, svo.2.filter (fun cd => p cd.2)))).flatMap
          (fun svo => svo.2.map (fun cd => (e, svo.1, cd.1, cd.2)))) =
        (svs.flatMap (fun svo => svo.2.map (fun cd => (e, svo.1, cd.1, cd.2)))).filter
          (fun x => p x.2.2.2) := by
  intro svs
  induction svs with
  | nil => rfl
  | cons svo t ih =>
    simp only [List.map_cons, List.flatMap_cons, List.filter_append]
    rw [ih, obsCodes_filter_map_comm]

theorem obsEntries_obsDataFilter (p : ObservationData → Bool) :
    ∀ rec : List (Epoch × ObsEpochValue),
      obsEntries (obsDataFilter p rec) = (obsEntries rec).filter (fun x => p x.2.2.2) := by
  intro rec
  induction rec with
  | nil => rfl
  | cons ev t ih =>
    simp only [obsEntries, obsDataFilter, List.map_cons, List.flatMap_cons,
      List.filter_append] at ih ⊢
    rw [ih, obsSvs_filter_flatMap_comm]

theorem obsEntries_obsDataFilter_mem (p : ObservationData → Bool)
    (rec : List (Epoch × ObsEpochValue)) (x : Epoch × Sv × String × ObservationData) :
    x ∈ obsEntries (obsDataFilter p rec) ↔ x ∈ obsEntries rec ∧ p x.2.2.2 = true := by
  rw [obsEntries_obsDataFilter, List.mem_filter]

/-- C9: the LLI filter keeps an observation entry iff it carries an LLI
bitflag intersecting the mask, and the minimum-signal-strength filter
keeps an entry iff it carries an SSI strictly greater than the minimum;
entries lacking the respective field are always dropped. -/
theorem c9_lli_ssi_drop_policy (r : Rinex) (mask minimum : Nat)
    (rec : List (Epoch × ObsEpochValue))
    (hty : r.header.rinexType = .ObservationData)
    (hrec : r.record = .obsR rec) :
    ∃ r1 r2,
      r.lliFilterMut mask = some r1
      ∧ r1.record = .obsR (obsDataFilter (keepLli mask) rec)
      ∧ (∀ x : Epoch × Sv × String × ObservationData,
          x ∈ obsEntries (obsDataFilter (keepLli mask) rec) ↔
            x ∈ obsEntries rec ∧ ∃ l, x.2.2.2.lli = some l ∧ Nat.land l mask ≠ 0)
      ∧ r.minimumSigStrengthFilterMut minimum = some r2
      ∧ r2.record = .obsR (obsDataFilter (keepSsi minimum) rec)
      ∧ (∀ x : Epoch × Sv × String × ObservationData,
          x ∈ obsEntries (obsDataFilter (keepSsi minimum) rec) ↔
            x ∈ obsEntries rec ∧ ∃ s, x.2.2.2.ssi = some s ∧ minimum < s) := by
  refine ⟨{ r with record := .obsR (obsDataFilter (keepLli mask) rec) },
          { r with record := .obsR (obsDataFilter (keepSsi minimum) rec) },
          ?_, rfl, ?_, ?_, rfl, ?_⟩
  · simp [Rinex.lliFilterMut, hty, hrec]
  · intro x
    rw [obsEntries_obsDataFilter_mem]
    constructor
    · rintro ⟨hx, hp⟩
      refine ⟨hx, ?_⟩
      unfold keepLli at hp
      match hl : x.2.2.2.lli with
      | some l => rw [hl] at hp; simp at hp; exact ⟨l, rfl, hp⟩
      | none => rw [hl] at hp; simp at hp
    · rintro ⟨hx, l, hl, hland⟩
      exact ⟨hx, by unfold keepLli; rw [hl]; simpa using hland⟩
  · simp [Rinex.minimumSigStrengthFilterMut, hty, hrec]
  · intro x
    rw [obsEntries_obsDataFilter_mem]
    constructor
    · rintro ⟨hx, hp⟩
      refine ⟨hx, ?_⟩
      unfold keepSsi at hp
      match hs : x.2.2.2.ssi with
      | some s => rw [hs] at hp; simp at hp; exact ⟨s, rfl, hp⟩
      | none => rw [hs] at hp; simp at hp
    · rintro ⟨hx, s, hs, hlt⟩
      exact ⟨hx, by unfold keepSsi; rw [hs]; simpa using hlt⟩

/-- Concrete instantiation of the drop-policy theorem: one epoch, one
vehicle, three codes (LLI present and intersecting; LLI absent; SSI
absent). -/
theorem c9_lli_ssi_drop_policy_witness :
    ∃ r1 r2,
      (Rinex.mk ⟨.ObservationData, [], none⟩ []
        (.obsR [(⟨0, 0⟩, (none, [(⟨0, 1⟩,
          [("L1C", ⟨1, some 1, none⟩), ("L2C", ⟨2, none, some 5⟩)])]))])).lliFilterMut 1
        = some r1
      ∧ r1.record = .obsR (obsDataFilter (keepLli 1)
          [(⟨0, 0⟩, (none, [(⟨0, 1⟩,
            [("L1C", ⟨1, some 1, none⟩), ("L2C", ⟨2, none, some 5⟩)])]))])
      ∧ (∀ x : Epoch × Sv × String × ObservationData,
          x ∈ obsEntries (obsDataFilter (keepLli 1)
            [(⟨0, 0⟩, (none, [(⟨0, 1⟩,
              [("L1C", ⟨1, some 1, none⟩), ("L2C", ⟨2, none, some 5⟩)])]))]) ↔
            x ∈ obsEntries [(⟨0, 0⟩, (none, [(⟨0, 1⟩,
              [("L1C", ⟨1, some 1, none⟩), ("L2C", ⟨2, none, some 5⟩)])]))]
            ∧ ∃ l, x.2.2.2.lli = some l ∧ Nat.land l 1 ≠ 0)
      ∧ (Rinex.mk ⟨.ObservationData, [], none⟩ []
          (.obsR [(⟨0, 0⟩, (none, [(⟨0, 1⟩,
            [("L1C", ⟨1, some 1, none⟩),
             ("L2C", ⟨2, none, some 5⟩)])]))])).minimumSigStrengthFilterMut 3
          = some r2
      ∧ r2.record = .obsR (obsDataFilter (keepSsi 3)
          [(⟨0, 0⟩, (none, [(⟨0, 1⟩,
            [("L1C", ⟨1, some 1, none⟩), ("L2C", ⟨2, none, some 5⟩)])]))])
      ∧ (∀ x : Epoch × Sv × String × ObservationData,
          x ∈ obsEntries (obsDataFilter (keepSsi 3)
            [(⟨0, 0⟩, (none, [(⟨0, 1⟩,
              [("L1C", ⟨1, some 1, none⟩), ("L2C", ⟨2, none, some 5⟩)])]))]) ↔
            x ∈ obsEntries [(⟨0, 0⟩, (none, [(⟨0, 1⟩,
              [("L1C", ⟨1, some 1, none⟩), ("L2C", ⟨2, none, some 5⟩)])]))]
            ∧ ∃ s, x.2.2.2.ssi = some s ∧ 3 < s) :=
  c9_lli_ssi_drop_policy _ 1 3 _ rfl rfl

/-- `SplitError` (lib.rs:131). -/
inductive SplitError
  | EpochTooEarly
  | EpochTooLate
deriving DecidableEq

/-- The `flat_map`/`collect` pass of `split_record_at_epoch` building the
left half: entries strictly before the boundary date. -/
def splitLeft (e : Epoch) (rec : List (Epoch × α)) : List (Epoch × α) :=
  rec.filter (fun kv => decide (kv.1.date < e.date))

/-- The right half: entries at or after the boundary date. -/
def splitRight (e : Epoch) (rec : List (Epoch × α)) : List (Epoch × α) :=
  rec.filter (fun kv => decide (e.date ≤ kv.1.date))

/-- `Rinex::split_record_at_epoch` (lib.rs:545): bounds checks against
`epochs()[0]` / `epochs()[len-1]` first (`none` models the panic on an
empty epoch list or on `epochs()` itself panicking), then the typed
errors, then the two filtered halves for the three supported variants
(the remaining variants hit the source's `unreachable!`). -/
def Rinex.splitRecordAtEpoch (r : Rinex) (e : Epoch) :
    Option (Except SplitError (Record × Record)) :=
  match r.epochs with
  | none => none
  | some eps =>
    match eps.head?, eps.getLast? with
    | some first, some last =>
      if e.date < first.date then some (.error .EpochTooEarly)
      else if last.date < e.date then some (.error .EpochTooLate)
      else
        match r.header.rinexType, r.record with
        | .NavigationData, .navR rec =>
            some (.ok (.navR (splitLeft e rec), .navR (splitRight e rec)))
        | .ObservationData, .obsR rec =>
            some (.ok (.obsR (splitLeft e rec), .obsR (splitRight e rec)))
        | .MeteoData, .meteoR rec =>
            some (.ok (.meteoR (splitLeft e rec), .meteoR (splitRight e rec)))
        | _, _ => none
    | _, _ => none

/-- `Rinex::split_at_epoch` (lib.rs:526): wraps the record split, copying
header and comments into both halves. -/
def Rinex.splitAtEpoch (r : Rinex) (e : Epoch) :
    Option (Except SplitError (Rinex × Rinex)) :=
  match r.splitRecordAtEpoch e with
  | none => none
  | some (.error er) => some (.error er)
  | some (.ok (r0, r1)) =>
      some (.ok ({ r with record := r0 }, { r with record := r1 }))

/-- Date-predicate filtering of a record, used to state what the two
halves of a split are (the Antenna variant has no dates and is returned
whole). -/
def Record.filterDates (p : Date → Bool) : Record → Record
  | .obsR r => .obsR (r.filter (fun kv => p kv.1.date))
  | .navR r => .navR (r.filter (fun kv => p kv.1.date))
  | .meteoR r => .meteoR (r.filter (fun kv => p kv.1.date))
  | .clockR r => .clockR (r.filter (fun kv => p kv.1.date))
  | .ionexR r => .ionexR (r.filter (fun kv => p kv.1.date))
  | .antexR r => .antexR r

theorem map_fst_filter_dates (p : Date → Bool) :
    ∀ rec : List (Epoch × α),
      (rec.filter (fun kv => p kv.1.date)).map Prod.fst =
        (rec.map Prod.fst).filter (fun k => p k.date) := by
  intro rec
  induction rec with
  | nil => rfl
  | cons kv t ih =>
    by_cases h : p kv.1.date
    · simp [List.filter_cons, h, ih]
    · simp [List.filter_cons, h, ih]

theorem splitHalves_perm (e : Epoch) (rec : List (Epoch × α)) :
    (splitLeft e rec ++ splitRight e rec).Perm rec := by
  have hcongr : splitRight e rec =
      rec.filter (fun kv => !(decide (kv.1.date < e.date))) := by
    refine List.filter_congr ?_
    intro kv _
    rw [decide_eq_decide.mpr (not_lt.symm), decide_not]
  rw [splitLeft, hcongr]
  exact List.filter_append_perm _ rec

instance epochDateLtTrans : IsTrans Epoch (fun a b => a.date < b.date) :=
  ⟨fun _ _ _ hab hbc => lt_trans hab hbc⟩

instance epochDateGtTrans : IsTrans Epoch (fun a b => b.date < a.date) :=
  ⟨fun _ _ _ hab hbc => lt_trans hbc hab⟩

theorem sorted_head_min (l : List Epoch)
    (hs : l.Chain' (fun a b => a.date < b.date)) (f : Epoch)
    (hf : l.head? = some f) : ∀ k ∈ l, f.date ≤ k.date := by
  match l, hf with
  | f :: t, rfl =>
    intro k hk
    rcases List.mem_cons.mp hk with rfl | hk
    · exact le_refl _
    · have hp := (List.chain'_iff_pairwise.mp hs)
      exact le_of_lt ((List.pairwise_cons.mp hp).1 k hk)

theorem sorted_last_max (l : List Epoch)
    (hs : l.Chain' (fun a b => a.date < b.date)) (g : Epoch)
    (hg : l.getLast? = some g) : ∀ k ∈ l, k.date ≤ g.date := by
  intro k hk
  rw [List.getLast?_eq_head?_reverse] at hg
  have hs' : l.reverse.Chain' (fun a b => b.date < a.date) := by
    rw [List.chain'_reverse]
    exact hs
  have hp := List.chain'_iff_pairwise.mp hs'
  match hrev : l.reverse, hg with
  | g :: t, _ =>
    rw [hrev] at hg hp
    injection hg with hg
    subst hg
    have hk' : k ∈ g :: t := by
      rw [← hrev]
      exact List.mem_reverse.mpr hk
    rcases List.mem_cons.mp hk' with rfl | hk'
    · exact le_refl _
    · exact le_of_lt ((List.pairwise_cons.mp hp).1 k hk')

theorem epochKeys_filterDates (p : Date → Bool) (rec : Record) :
    (rec.filterDates p).epochKeys = rec.epochKeys.filter (fun k => p k.date) := by
  cases rec <;> simp [Record.filterDates, Record.epochKeys, map_fst_filter_dates]

theorem keys_split_perm (e : Epoch) (keys : List Epoch) :
    (keys.filter (fun k => decide (k.date < e.date)) ++
      keys.filter (fun k => decide (e.date ≤ k.date))).Perm keys := by
  have hcongr : keys.filter (fun k => decide (e.date ≤ k.date)) =
      keys.filter (fun k => !(decide (k.date < e.date))) := by
    refine List.filter_congr ?_
    intro k _
    rw [decide_eq_decide.mpr (not_lt.symm), decide_not]
  rw [hcongr]
  exact List.filter_append_perm _ keys

theorem epochs_eq_epochKeys (r : Rinex) (hw : r.typeMatches = true)
    (hty : r.header.rinexType ≠ .ClockData ∧ r.header.rinexType ≠ .AntennaData) :
    r.epochs = some r.record.epochKeys := by
  obtain ⟨⟨ty, hcm, hcon⟩, rc, rec⟩ := r
  cases ty <;> cases rec <;>
    first
    | rfl
    | exact absurd rfl hty.1
    | exact absurd rfl hty.2
    | exact absurd hw (by simp [Rinex.typeMatches])

/-- The case analysis of `split_record_at_epoch` on a well-typed
Observation/Navigation/Meteo `Rinex` with a non-empty epoch list. -/
theorem splitRecordAtEpoch_eq (r : Rinex) (e : Epoch)
    (hty : r.header.rinexType = .ObservationData ∨ r.header.rinexType = .NavigationData ∨
      r.header.rinexType = .MeteoData)
    (hw : r.typeMatches = true) (f g : Epoch)
    (hf : r.record.epochKeys.head? = some f)
    (hg : r.record.epochKeys.getLast? = some g) :
    r.splitRecordAtEpoch e =
      if e.date < f.date then some (.error .EpochTooEarly)
      else if g.date < e.date then some (.error .EpochTooLate)
      else some (.ok (r.record.filterDates (fun d => decide (d < e.date)),
                      r.record.filterDates (fun d => decide (e.date ≤ d)))) := by
  obtain ⟨⟨ty, hcm, hcon⟩, rc, rec⟩ := r
  rcases hty with h | h | h <;> subst h <;> cases rec <;>
    first
    | (dsimp only [Record.epochKeys] at hf hg
       unfold Rinex.splitRecordAtEpoch
       dsimp only [Rinex.epochs]
       rw [hf, hg]
       rfl)
    | exact absurd hw (by simp [Rinex.typeMatches])

theorem split_bounds_of_range (e : Epoch) (eps : List Epoch)
    (hsort : eps.Chain' (fun a b => a.date < b.date))
    (hlo : ∃ k ∈ eps, k.date ≤ e.date) (hhi : ∃ k ∈ eps, e.date ≤ k.date) :
    ∃ f g, eps.head? = some f ∧ eps.getLast? = some g ∧
      ¬(e.date < f.date) ∧ ¬(g.date < e.date) := by
  obtain ⟨k1, hk1, hk1e⟩ := hlo
  have hne : eps ≠ [] := by
    rintro rfl
    exact absurd hk1 (List.not_mem_nil k1)
  obtain ⟨f, hf⟩ : ∃ f, eps.head? = some f := by
    cases eps with
    | nil => exact absurd rfl hne
    | cons a t => exact ⟨a, rfl⟩
  obtain ⟨g, hg⟩ : ∃ g, eps.getLast? = some g := by
    cases hq : eps.getLast? with
    | none => exact absurd (List.getLast?_eq_none_iff.mp hq) hne
    | some g => exact ⟨g, rfl⟩
  refine ⟨f, g, hf, hg, ?_, ?_⟩
  · exact not_lt.mpr (le_trans (sorted_head_min eps hsort f hf k1 hk1) hk1e)
  · obtain ⟨k2, hk2, hek2⟩ := hhi
    exact not_lt.mpr (le_trans hek2 (sorted_last_max eps hsort g hg k2 hk2))

/-- C5: on a well-typed Observation/Navigation/Meteo record, splitting at
an in-range epoch succeeds and partitions the record: the left half holds
exactly the entries strictly before the boundary date, the right half
exactly those at or after it (an entry whose date equals the boundary
goes right), the two epoch sets are disjoint, and together they are a
permutation of (contain exactly once each of) the original epochs. -/
theorem c5_split_completeness (r : Rinex) (e : Epoch)
    (hty : r.header.rinexType = .ObservationData ∨ r.header.rinexType = .NavigationData ∨
      r.header.rinexType = .MeteoData)
    (hw : r.typeMatches = true)
    (hsort : r.record.datesSorted)
    (hlo : ∃ k ∈ r.record.epochKeys, k.date ≤ e.date)
    (hhi : ∃ k ∈ r.record.epochKeys, e.date ≤ k.date) :
    r.splitRecordAtEpoch e =
      some (.ok (r.record.filterDates (fun d => decide (d < e.date)),
                 r.record.filterDates (fun d => decide (e.date ≤ d))))
    ∧ (∀ k ∈ (r.record.filterDates (fun d => decide (d < e.date))).epochKeys,
        k.date < e.date)
    ∧ (∀ k ∈ (r.record.filterDates (fun d => decide (e.date ≤ d))).epochKeys,
        e.date ≤ k.date)
    ∧ (∀ k, ¬(k ∈ (r.record.filterDates (fun d => decide (d < e.date))).epochKeys ∧
        k ∈ (r.record.filterDates (fun d => decide (e.date ≤ d))).epochKeys))
    ∧ ((r.record.filterDates (fun d => decide (d < e.date))).epochKeys ++
        (r.record.filterDates (fun d => decide (e.date ≤ d))).epochKeys).Perm
        r.record.epochKeys := by
  obtain ⟨f, g, hf, hg, h1, h2⟩ :=
    split_bounds_of_range e r.record.epochKeys hsort hlo hhi
  refine ⟨?_, ?_, ?_, ?_, ?_⟩
  · rw [splitRecordAtEpoch_eq r e hty hw f g hf hg, if_neg h1, if_neg h2]
  · intro k hk
    rw [epochKeys_filterDates] at hk
    exact of_decide_eq_true (List.mem_filter.mp hk).2
  · intro k hk
    rw [epochKeys_filterDates] at hk
    exact of_decide_eq_true (List.mem_filter.mp hk).2
  · rintro k ⟨hkl, hkr⟩
    rw [epochKeys_filterDates] at hkl hkr
    have hlt := of_decide_eq_true (List.mem_filter.mp hkl).2
    have hle := of_decide_eq_true (List.mem_filter.mp hkr).2
    exact absurd hlt (not_lt.mpr hle)
  · rw [epochKeys_filterDates, epochKeys_filterDates]
    exact keys_split_perm e r.record.epochKeys

/-- Concrete instantiation of the split-completeness theorem: a
three-epoch Observation record split at the date of its middle epoch. -/
theorem c5_split_completeness_witness :
    (Rinex.mk ⟨.ObservationData, [], none⟩ []
        (.obsR [(⟨0, 0⟩, (none, [])), (⟨10, 0⟩, (none, [])),
          (⟨20, 0⟩, (none, []))])).splitRecordAtEpoch ⟨10, 0⟩ =
      some (.ok ((Record.obsR [(⟨0, 0⟩, (none, [])), (⟨10, 0⟩, (none, [])),
          (⟨20, 0⟩, (none, []))]).filterDates (fun d => decide (d < (10 : Int))),
        (Record.obsR [(⟨0, 0⟩, (none, [])), (⟨10, 0⟩, (none, [])),
          (⟨20, 0⟩, (none, []))]).filterDates (fun d => decide ((10 : Int) ≤ d)))) :=
  (c5_split_completeness
    (Rinex.mk ⟨.ObservationData, [], none⟩ []
      (.obsR [(⟨0, 0⟩, (none, [])), (⟨10, 0⟩, (none, [])), (⟨20, 0⟩, (none, []))]))
    ⟨10, 0⟩ (Or.inl rfl) rfl
    (by simp [Record.datesSorted, Record.epochKeys, List.chain'_cons])
    ⟨⟨0, 0⟩, by decide⟩ ⟨⟨20, 0⟩, by decide⟩).1

/-- C6: on a non-empty well-typed Observation/Navigation/Meteo record,
`split_record_at_epoch` returns `EpochTooEarly` iff the boundary date
precedes every recorded epoch date, `EpochTooLate` iff it follows every
recorded epoch date, and otherwise succeeds (the operation takes `&self`
and never mutates its input). -/
theorem c6_split_error_iff (r : Rinex) (e : Epoch)
    (hty : r.header.rinexType = .ObservationData ∨ r.header.rinexType = .NavigationData ∨
      r.header.rinexType = .MeteoData)
    (hw : r.typeMatches = true)
    (hne : r.record.epochKeys ≠ [])
    (hsort : r.record.datesSorted) :
    (r.splitRecordAtEpoch e = some (.error .EpochTooEarly) ↔
      ∀ k ∈ r.record.epochKeys, e.date < k.date)
    ∧ (r.splitRecordAtEpoch e = some (.error .EpochTooLate) ↔
      ∀ k ∈ r.record.epochKeys, k.date < e.date)
    ∧ ((¬ ∀ k ∈ r.record.epochKeys, e.date < k.date) →
       (¬ ∀ k ∈ r.record.epochKeys, k.date < e.date) →
       r.splitRecordAtEpoch e =
         some (.ok (r.record.filterDates (fun d => decide (d < e.date)),
                    r.record.filterDates (fun d => decide (e.date ≤ d))))) := by
  obtain ⟨f, hf⟩ : ∃ f, r.record.epochKeys.head? = some f := by
    cases hk : r.record.epochKeys with
    | nil => exact absurd hk hne
    | cons a t => exact ⟨a, rfl⟩
  obtain ⟨g, hg⟩ : ∃ g, r.record.epochKeys.getLast? = some g := by
    cases hq : r.record.epochKeys.getLast? with
    | none => exact absurd (List.getLast?_eq_none_iff.mp hq) hne
    | some g => exact ⟨g, rfl⟩
  have hfmem : f ∈ r.record.epochKeys := List.mem_of_mem_head? (Option.mem_def.mpr hf)
  have hgmem : g ∈ r.record.epochKeys := List.mem_of_getLast?_eq_some hg
  have hmin := sorted_head_min _ hsort f hf
  have hmax := sorted_last_max _ hsort g hg
  rw [splitRecordAtEpoch_eq r e hty hw f g hf hg]
  by_cases h1 : e.date < f.date
  · rw [if_pos h1]
    refine ⟨⟨fun _ k hk => lt_of_lt_of_le h1 (hmin k hk), fun _ => rfl⟩, ?_, ?_⟩
    · constructor
      · intro hcontra
        simp at hcontra
      · intro hall
        exact absurd (hall f hfmem) (not_lt.mpr (le_of_lt h1))
    · intro hne1 _
      exact absurd (fun k hk => lt_of_lt_of_le h1 (hmin k hk)) hne1
  · rw [if_neg h1]
    by_cases h2 : g.date < e.date
    · rw [if_pos h2]
      refine ⟨?_, ⟨fun _ k hk => lt_of_le_of_lt (hmax k hk) h2, fun _ => rfl⟩, ?_⟩
      · constructor
        · intro hcontra
          simp at hcontra
        · intro hall
          exact absurd (hall f hfmem) h1
      · intro _ hne2
        exact absurd (fun k hk => lt_of_le_of_lt (hmax k hk) h2) hne2
    · rw [if_neg h2]
      refine ⟨?_, ?_, fun _ _ => rfl⟩
      · constructor
        · intro hcontra
          simp at hcontra
        · intro hall
          exact absurd (hall f hfmem) h1
      · constructor
        · intro hcontra
          simp at hcontra
        · intro hall
          exact absurd (hall g hgmem) h2

/-- Concrete instantiation of the split error-condition theorem on a
two-epoch Observation record. -/
theorem c6_split_error_iff_witness :
    ((Rinex.mk ⟨.ObservationData, [], none⟩ []
        (.obsR [(⟨0, 0⟩, (none, [])), (⟨10, 0⟩, (none, []))])).splitRecordAtEpoch
          ⟨-5, 0⟩ = some (.error .EpochTooEarly) ↔
      ∀ k ∈ (Record.obsR [(⟨0, 0⟩, (none, [])),
        (⟨10, 0⟩, (none, []))]).epochKeys, (-5 : Int) < k.date) :=
  (c6_split_error_iff
    (Rinex.mk ⟨.ObservationData, [], none⟩ []
      (.obsR [(⟨0, 0⟩, (none, [])), (⟨10, 0⟩, (none, []))]))
    ⟨-5, 0⟩ (Or.inl rfl) rfl (by decide)
    (by simp [Record.datesSorted, Record.epochKeys, List.chain'_cons])).1

/-- C10: on a well-typed epoch-indexed `Rinex` whose record holds zero
epochs, `split_record_at_epoch` panics — out-of-bounds indexing of the
empty `epochs()` list, modelled as `none` — rather than returning
`EpochTooEarly` or `EpochTooLate`. -/
theorem c10_split_panics_on_empty_record (r : Rinex) (e : Epoch)
    (hw : r.typeMatches = true)
    (hty : r.header.rinexType ≠ .ClockData ∧ r.header.rinexType ≠ .AntennaData)
    (hemp : r.record.epochKeys = []) :
    r.splitRecordAtEpoch e = none := by
  have heps := epochs_eq_epochKeys r hw hty
  rw [hemp] at heps
  unfold Rinex.splitRecordAtEpoch
  rw [heps]
  rfl

/-- Concrete instantiation: splitting an empty Observation record panics
instead of producing a typed split error. -/
theorem c10_split_panics_on_empty_record_witness :
    (Rinex.mk ⟨.ObservationData, [], none⟩ []
        (.obsR [])).splitRecordAtEpoch ⟨5, 0⟩ = none :=
  c10_split_panics_on_empty_record
    (Rinex.mk ⟨.ObservationData, [], none⟩ [] (.obsR []))
    ⟨5, 0⟩ rfl ⟨by decide, by decide⟩ rfl

/-- The `retain` sweep shared by every arm of
`Rinex::decimate_by_interval_mut` (lib.rs:1721): a running
`last_preserved` date; an entry whose date equals `last_preserved` is
kept (the source's trick to keep the first entry), any other entry is
kept iff its distance in whole seconds from the last preserved date
reaches the minimum, in which case `last_preserved` advances. -/
def decimSweep (dmin : Int) : Date → List (Epoch × α) → List (Epoch × α)
  | _, [] => []
  | last, kv :: t =>
    if kv.1.date ≠ last then
      if dmin ≤ kv.1.date - last then kv :: decimSweep dmin kv.1.date t
      else decimSweep dmin last t
    else kv :: decimSweep dmin kv.1.date t

/-- `Rinex::decimate_by_interval_mut` (lib.rs:1721): seeds the sweep with
`epochs()[0].date` (`none` models the panic on an empty record or on
`epochs()` itself panicking) and applies it to the four supported
variants (Clock and Antenna hit the source's `todo!`). -/
def Rinex.decimateByIntervalMut (r : Rinex) (dmin : Int) : Option Rinex :=
  match r.epochs with
  | none => none
  | some [] => none
  | some (e0 :: _) =>
    match r.header.rinexType, r.record with
    | .NavigationData, .navR rec =>
        some { r with record := .navR (decimSweep dmin e0.date rec) }
    | .ObservationData, .obsR rec =>
        some { r with record := .obsR (decimSweep dmin e0.date rec) }
    | .MeteoData, .meteoR rec =>
        some { r with record := .meteoR (decimSweep dmin e0.date rec) }
    | .IonosphereMaps, .ionexR rec =>
        some { r with record := .ionexR (decimSweep dmin e0.date rec) }
    | _, _ => none

/-- `Rinex::decimate_by_interval` (lib.rs:1808): the copy-returning
variant; the source duplicates the mutating sweep over a clone, branch
for branch, so the embedding shares the definition body. -/
def Rinex.decimateByInterval (r : Rinex) (dmin : Int) : Option Rinex :=
  match r.epochs with
  | none => none
  | some [] => none
  | some (e0 :: _) =>
    match r.header.rinexType, r.record with
    | .NavigationData, .navR rec =>
        some { r with record := .navR (decimSweep dmin e0.date rec) }
    | .ObservationData, .obsR rec =>
        some { r with record := .obsR (decimSweep dmin e0.date rec) }
    | .MeteoData, .meteoR rec =>
        some { r with record := .meteoR (decimSweep dmin e0.date rec) }
    | .IonosphereMaps, .ionexR rec =>
        some { r with record := .ionexR (decimSweep dmin e0.date rec) }
    | _, _ => none

/-- The sweep restricted to the epoch keys. -/
def decimSweepKeys (dmin : Int) : Date → List Epoch → List Epoch
  | _, [] => []
  | last, k :: t =>
    if k.date ≠ last then
      if dmin ≤ k.date - last then k :: decimSweepKeys dmin k.date t
      else decimSweepKeys dmin last t
    else k :: decimSweepKeys dmin k.date t

/-- Spec-side greedy selector, worded as the claim words it: retain an
epoch iff its date is at least the minimum duration away from the date of
the last *retained* epoch. -/
def greedyKeys (dmin : Int) : Date → List Epoch → List Epoch
  | _, [] => []
  | last, k :: t =>
    if dmin ≤ k.date - last then k :: greedyKeys dmin k.date t
    else greedyKeys dmin last t

theorem decimSweep_map_fst (dmin : Int) :
    ∀ (rec : List (Epoch × α)) (last : Date),
      (decimSweep dmin last rec).map Prod.fst =
        decimSweepKeys dmin last (rec.map Prod.fst) := by
  intro rec
  induction rec with
  | nil => intro last; rfl
  | cons kv t ih =>
    intro last
    simp only [decimSweep, decimSweepKeys, List.map_cons]
    by_cases h1 : kv.1.date ≠ last
    · rw [if_pos h1, if_pos h1]
      by_cases h2 : dmin ≤ kv.1.date - last
      · rw [if_pos h2, if_pos h2, List.map_cons, ih kv.1.date]
      · rw [if_neg h2, if_neg h2, ih last]
    · rw [if_neg h1, if_neg h1, List.map_cons, ih kv.1.date]

theorem decimSweepKeys_eq_greedy (dmin : Int) :
    ∀ (l : List Epoch) (last : Date),
      l.Chain' (fun a b => a.date < b.date) →
      (∀ k ∈ l, last < k.date) →
      decimSweepKeys dmin last l = greedyKeys dmin last l := by
  intro l
  induction l with
  | nil => intro last _ _; rfl
  | cons k t ih =>
    intro last hs hgt
    have hne : k.date ≠ last := ne_of_gt (hgt k (List.mem_cons_self k t))
    simp only [decimSweepKeys, greedyKeys, if_pos hne]
    have hhead : ∀ x ∈ t, k.date < x.date :=
      (List.pairwise_cons.mp (List.chain'_iff_pairwise.mp hs)).1
    have hs' : t.Chain' (fun a b => a.date < b.date) := (List.chain'_cons'.mp hs).2
    by_cases h2 : dmin ≤ k.date - last
    · rw [if_pos h2, if_pos h2, ih k.date hs' hhead]
    · rw [if_neg h2, if_neg h2]
      exact ih last hs' (fun x hx => lt_trans (hgt k (List.mem_cons_self k t)) (hhead x hx))

theorem decimSweepKeys_run (dmin : Int) (e0 : Epoch) (t : List Epoch)
    (hs : (e0 :: t).Chain' (fun a b => a.date < b.date)) :
    decimSweepKeys dmin e0.date (e0 :: t) = e0 :: greedyKeys dmin e0.date t := by
  simp only [decimSweepKeys]
  rw [if_neg (by simp)]
  rw [decimSweepKeys_eq_greedy dmin t e0.date (List.chain'_cons'.mp hs).2
    (List.pairwise_cons.mp (List.chain'_iff_pairwise.mp hs)).1]

theorem greedyKeys_sublist (dmin : Int) :
    ∀ (l : List Epoch) (last : Date), (greedyKeys dmin last l).Sublist l := by
  intro l
  induction l with
  | nil => intro last; exact List.Sublist.refl []
  | cons k t ih =>
    intro last
    simp only [greedyKeys]
    by_cases h : dmin ≤ k.date - last
    · rw [if_pos h]
      exact List.Sublist.cons₂ k (ih k.date)
    · rw [if_neg h]
      exact List.Sublist.cons k (ih last)

theorem greedyKeys_gaps (dmin : Int) :
    ∀ (l : List Epoch) (last : Date),
      (greedyKeys dmin last l).Chain' (fun a b => dmin ≤ b.date - a.date)
      ∧ ∀ f ∈ (greedyKeys dmin last l).head?, dmin ≤ f.date - last := by
  intro l
  induction l with
  | nil => intro last; exact ⟨List.chain'_nil, fun f hf => by simp [greedyKeys] at hf⟩
  | cons k t ih =>
    intro last
    simp only [greedyKeys]
    by_cases h : dmin ≤ k.date - last
    · rw [if_pos h]
      refine ⟨List.chain'_cons'.mpr ⟨(ih k.date).2, (ih k.date).1⟩, ?_⟩
      intro f hf
      simp only [List.head?_cons, Option.mem_def, Option.some.injEq] at hf
      subst hf
      exact h
    · rw [if_neg h]
      exact ih last

theorem decimSweep_spec (dmin : Int) (kv : Epoch × α) (t : List (Epoch × α))
    (hs : ((kv :: t).map Prod.fst).Chain' (fun a b => a.date < b.date)) :
    ((decimSweep dmin kv.1.date (kv :: t)).map Prod.fst
        = kv.1 :: greedyKeys dmin kv.1.date (t.map Prod.fst))
    ∧ ((decimSweep dmin kv.1.date (kv :: t)).map Prod.fst).Sublist
        ((kv :: t).map Prod.fst)
    ∧ ((decimSweep dmin kv.1.date (kv :: t)).map Prod.fst).Chain'
        (fun a b => dmin ≤ b.date - a.date) := by
  have hkeys : (decimSweep dmin kv.1.date (kv :: t)).map Prod.fst =
      kv.1 :: greedyKeys dmin kv.1.date (t.map Prod.fst) := by
    rw [decimSweep_map_fst, List.map_cons]
    exact decimSweepKeys_run dmin kv.1 (t.map Prod.fst) (by simpa using hs)
  refine ⟨hkeys, ?_, ?_⟩
  · rw [hkeys, List.map_cons]
    exact List.Sublist.cons₂ _ (greedyKeys_sublist dmin _ _)
  · rw [hkeys]
    exact List.chain'_cons'.mpr ⟨(greedyKeys_gaps dmin _ _).2, (greedyKeys_gaps dmin _ _).1⟩

/-- C7: decimation by a minimum interval on a non-empty well-typed
epoch-indexed record is the single left-to-right greedy sweep: the first
epoch is always retained, a subsequent epoch is retained iff its date is
at least the minimum away from the last retained date (`greedyKeys`),
the output is a subsequence of the input, and every pair of consecutive
retained epochs is separated by at least the minimum; the copy-returning
form agrees with the in-place form. -/
theorem c7_decimate_interval_greedy (r : Rinex) (dmin : Int)
    (hw : r.typeMatches = true)
    (hty : r.header.rinexType ≠ .ClockData ∧ r.header.rinexType ≠ .AntennaData)
    (hsort : r.record.datesSorted)
    (e0 : Epoch) (rest : List Epoch)
    (hkeys : r.record.epochKeys = e0 :: rest) :
    ∃ r1, r.decimateByIntervalMut dmin = some r1
      ∧ r.decimateByInterval dmin = some r1
      ∧ r1.record.epochKeys = e0 :: greedyKeys dmin e0.date rest
      ∧ r1.record.epochKeys.head? = some e0
      ∧ r1.record.epochKeys.Sublist r.record.epochKeys
      ∧ r1.record.epochKeys.Chain' (fun a b => dmin ≤ b.date - a.date) := by
  obtain ⟨⟨ty, hcm, hcon⟩, rc, rec⟩ := r
  cases ty <;> cases rec <;>
    first
    | exact absurd rfl hty.1
    | exact absurd rfl hty.2
    | (rename_i l
       cases l with
       | nil => exact absurd hkeys (by simp [Record.epochKeys])
       | cons kv t =>
         simp only [Record.epochKeys, List.map_cons] at hkeys
         injection hkeys with hk0 hrest
         subst hk0
         subst hrest
         have spec := decimSweep_spec dmin kv t
           (by simpa [Record.datesSorted, Record.epochKeys] using hsort)
         refine ⟨_, rfl, rfl, spec.1, ?_, spec.2.1, spec.2.2⟩
         show ((decimSweep dmin kv.1.date (kv :: t)).map Prod.fst).head? = some kv.1
         rw [spec.1]
         rfl)
    | exact absurd hw (by simp [Rinex.typeMatches])

/-- Concrete instantiation of the interval-decimation theorem: epochs at
0, 5, 30, 40 seconds decimated with a 30-second minimum. -/
theorem c7_decimate_interval_greedy_witness :
    ∃ r1, (Rinex.mk ⟨.MeteoData, [], none⟩ []
        (.meteoR [(⟨0, 0⟩, []), (⟨5, 0⟩, []), (⟨30, 0⟩, []),
          (⟨40, 0⟩, [])])).decimateByIntervalMut 30 = some r1
      ∧ (Rinex.mk ⟨.MeteoData, [], none⟩ []
          (.meteoR [(⟨0, 0⟩, []), (⟨5, 0⟩, []), (⟨30, 0⟩, []),
            (⟨40, 0⟩, [])])).decimateByInterval 30 = some r1
      ∧ r1.record.epochKeys =
          (⟨0, 0⟩ : Epoch) :: greedyKeys 30 (0 : Int) [⟨5, 0⟩, ⟨30, 0⟩, ⟨40, 0⟩]
      ∧ r1.record.epochKeys.head? = some ⟨0, 0⟩
      ∧ r1.record.epochKeys.Sublist (Record.meteoR [(⟨0, 0⟩, []), (⟨5, 0⟩, []),
          (⟨30, 0⟩, []), (⟨40, 0⟩, [])]).epochKeys
      ∧ r1.record.epochKeys.Chain' (fun a b => (30 : Int) ≤ b.date - a.date) :=
  c7_decimate_interval_greedy
    (Rinex.mk ⟨.MeteoData, [], none⟩ []
      (.meteoR [(⟨0, 0⟩, []), (⟨5, 0⟩, []), (⟨30, 0⟩, []), (⟨40, 0⟩, [])]))
    30 rfl ⟨by decide, by decide⟩
    (by simp [Record.datesSorted, Record.epochKeys, List.chain'_cons])
    ⟨0, 0⟩ [⟨5, 0⟩, ⟨30, 0⟩, ⟨40, 0⟩] rfl

/-- `merge::MergeError`: header-merge incompatibility. -/
inductive MergeError
  | HeaderMismatch
deriving DecidableEq

/-- Modelled from the spec: `header::Header::merge_mut` lives in the
excluded header layer (the in-repo `header.rs` predates it).  Per spec
§4.1 the operation fails with a header-mismatch error iff the two headers
are not merge-compatible; compatibility is modelled as agreement of the
record type and constellation, and a compatible merge leaves the
consuming header unchanged (spec §8 requires `merge(self, empty)` to
leave `self` byte-for-byte unchanged). -/
def Header.mergeMut (a b : Header) : Except MergeError Header :=
  if a.rinexType = b.rinexType ∧ a.constellation = b.constellation then .ok a
  else .error .HeaderMismatch

theorem headerMergeMut_ok (a b : Header)
    (h : a.rinexType = b.rinexType ∧ a.constellation = b.constellation) :
    a.mergeMut b = .ok a := by
  unfold Header.mergeMut
  rw [if_pos h]

/-- A broken-down UTC wall-clock timestamp, as fed to chrono's
`%Y%m%d %H%M%S` formatter by `merge_mut`. -/
structure DateTime where
  year : Nat
  month : Nat
  day : Nat
  hour : Nat
  minute : Nat
  second : Nat
deriving DecidableEq

/-- Decimal digits of a number, zero-padded on the left to a width (the
behaviour of chrono's padded numeric format items). -/
def padZeros (w n : Nat) : String :=
  String.mk (List.replicate (w - (toString n).length) '0') ++ toString n

/-- chrono's `%Y%m%d %H%M%S` rendering of a timestamp. -/
def formatYmdHms (t : DateTime) : String :=
  padZeros 4 t.year ++ padZeros 2 t.month ++ padZeros 2 t.day ++ " " ++
    padZeros 2 t.hour ++ padZeros 2 t.minute ++ padZeros 2 t.second

/-- Rust's `{:<20}` format spec: left-align, pad on the right with
spaces to at least 20 columns, never truncating. -/
def padAlignLeft (s : String) (w : Nat) : String :=
  s ++ String.mk (List.replicate (w - s.length) ' ')

/-- The merge-marker comment pushed by `merge_mut` (lib.rs:709):
`"rustrnx-{:<20} FILE MERGE          {} UTC"` applied to the
`CARGO_PKG_VERSION` build constant and the `%Y%m%d %H%M%S` wall-clock
rendering. -/
def mergeMarker (version : String) (now : DateTime) : String :=
  "rustrnx-" ++ padAlignLeft version 20 ++ " FILE MERGE          " ++
    formatYmdHms now ++ " UTC"

/-- `BTreeMap::insert` on a date-ordered association list (the spec's
date-only `Epoch` ordering): on an existing date the value is replaced
and the stored key kept, exactly as `BTreeMap::insert` keeps the old
key. -/
def mapInsert (k : Epoch) (v : α) : List (Epoch × α) → List (Epoch × α)
  | [] => [(k, v)]
  | (k0, v0) :: t =>
    if k.date < k0.date then (k, v) :: (k0, v0) :: t
    else if k.date = k0.date then (k0, v) :: t
    else (k0, v0) :: mapInsert k v t

/-- The merge loop body of `merge_mut`: insert every pair of `other`
into `self`, last-writer-wins. -/
def mapMerge (a b : List (Epoch × α)) : List (Epoch × α) :=
  b.foldl (fun acc kv => mapInsert kv.1 kv.2 acc) a

/-- `Rinex::merge_mut` (lib.rs:697).  The wall-clock time of the call
and the `CARGO_PKG_VERSION` build constant are explicit parameters.
Header merge first (typed error on mismatch); then both epoch lists are
collected (`none` models the `epochs()` panic on Clock/Antenna types or
a type/variant mismatch); an empty `self` is overwritten with `other`'s
record, an empty `other` leaves `self` untouched — no marker in either
case — and otherwise the marker comment is pushed onto the header
comment list and `other`'s entries are inserted pairwise. -/
def Rinex.mergeMut (a b : Rinex) (version : String) (now : DateTime) :
    Option (Except MergeError Rinex) :=
  match a.header.mergeMut b.header with
  | .error er => some (.error er)
  | .ok h =>
    match (Rinex.mk h a.comments a.record).epochs, b.epochs with
    | some eps, some oeps =>
      if eps.length = 0 then some (.ok (Rinex.mk h a.comments b.record))
      else if oeps.length = 0 then some (.ok (Rinex.mk h a.comments a.record))
      else
        match h.rinexType, a.record, b.record with
        | .NavigationData, .navR ra, .navR rb =>
            some (.ok (Rinex.mk
              { h with comments := h.comments ++ [mergeMarker version now] }
              a.comments (.navR (mapMerge ra rb))))
        | .ObservationData, .obsR ra, .obsR rb =>
            some (.ok (Rinex.mk
              { h with comments := h.comments ++ [mergeMarker version now] }
              a.comments (.obsR (mapMerge ra rb))))
        | .MeteoData, .meteoR ra, .meteoR rb =>
            some (.ok (Rinex.mk
              { h with comments := h.comments ++ [mergeMarker version now] }
              a.comments (.meteoR (mapMerge ra rb))))
        | .IonosphereMaps, .ionexR ra, .ionexR rb =>
            some (.ok (Rinex.mk
              { h with comments := h.comments ++ [mergeMarker version now] }
              a.comments (.ionexR (mapMerge ra rb))))
        | _, _, _ => none
    | _, _ => none

/-- Boolean prefix test on character lists. -/
def listIsPrefixOf : List Char → List Char → Bool
  | [], _ => true
  | _ :: _, [] => false
  | a :: as, b :: bs => a = b && listIsPrefixOf as bs

/-- Boolean substring test on character lists (Rust's `str::contains`
with a string pattern). -/
def listContainsSub (pat : List Char) : List Char → Bool
  | [] => pat.isEmpty
  | c :: t => listIsPrefixOf pat (c :: t) || listContainsSub pat t

/-- Rust `str::contains` for string pattern. -/
def strContains (s pat : String) : Bool := listContainsSub pat.data s.data

/-- `Rinex::is_merged` (lib.rs:428): scans the record-section comment
ledger `self.comments` — not the header comment list — for a comment
containing "FILE MERGE". -/
def Rinex.isMerged (r : Rinex) : Bool :=
  r.comments.any (fun ec => ec.2.any (fun c => strContains c "FILE MERGE"))

/-- `str::trim` (ASCII whitespace suffices for the marker text). -/
def trimChars (l : List Char) : List Char :=
  ((l.dropWhile Char.isWhitespace).reverse.dropWhile Char.isWhitespace).reverse

/-- Up to `w` leading decimal digits of the input, with the rest. -/
def takeDigits : Nat → List Char → List Char × List Char
  | 0, l => ([], l)
  | _ + 1, [] => ([], [])
  | w + 1, c :: t =>
    if c.isDigit then
      ((takeDigits w t).1.cons c, (takeDigits w t).2)
    else ([], c :: t)

def natOfDigits (ds : List Char) : Nat :=
  ds.foldl (fun a c => a * 10 + (c.toNat - 48)) 0

/-- One numeric item of chrono's parser: leading whitespace is skipped,
then between one and `w` digits are consumed.  (The relevant inputs
carry no sign; chrono would additionally accept one for signed items.) -/
def parseNum (w : Nat) (l : List Char) : Option (Nat × List Char) :=
  match takeDigits w (l.dropWhile Char.isWhitespace) with
  | ([], _) => none
  | (ds, rest) => some (natOfDigits ds, rest)

def lowerChar (c : Char) : Char :=
  if 'A' ≤ c ∧ c ≤ 'Z' then Char.ofNat (c.toNat + 32) else c

def monthAbbrevs : List String :=
  ["jan", "feb", "mar", "apr", "may", "jun",
   "jul", "aug", "sep", "oct", "nov", "dec"]

/-- chrono's `%h` (= `%b`) item: exactly three characters matched
case-insensitively against the English month abbreviations. -/
def monthFromName : List Char → Option (Nat × List Char)
  | c1 :: c2 :: c3 :: rest =>
    match monthAbbrevs.indexOf? (String.mk [lowerChar c1, lowerChar c2, lowerChar c3]) with
    | some i => some (i + 1, rest)
    | none => none
  | _ => none

/-- Models `chrono::NaiveDateTime::parse_from_str(content,
"%Y%m%d %h%m%s UTC")` as called by `merge_boundaries` (lib.rs:448).
The format items are: 4-digit year, 2-digit month, 2-digit day,
whitespace, `%h` = an abbreviated month NAME, 2-digit month, `%s` = a
Unix timestamp, whitespace, the literal "UTC"; success requires every
item to match, consistent month fields, and full consumption of the
input, and yields the `%s` instant.  (chrono additionally cross-checks
the calendar fields against the timestamp — a check that can only reject
more inputs and is unreachable on marker text, which fails at the
month-name item because the `%H%M%S` digits emitted by `merge_mut`
contain no month name.) -/
def parseMergeDatetime (l : List Char) : Option Int := do
  let (_y, l1) ← parseNum 4 l
  let (mo1, l2) ← parseNum 2 l1
  let (_d, l3) ← parseNum 2 l2
  let l4 := l3.dropWhile Char.isWhitespace
  let (mo2, l5) ← monthFromName l4
  let (mo3, l6) ← parseNum 2 l5
  let (ts, l7) ← parseNum 1000000 l6
  let l8 := l7.dropWhile Char.isWhitespace
  match l8 with
  | 'U' :: 'T' :: 'C' :: rest =>
    if rest.isEmpty ∧ mo1 = mo2 ∧ mo2 = mo3 ∧ 1 ≤ mo1 ∧ mo1 ≤ 12 then
      some (Int.ofNat ts)
    else none
  | _ => none

/-- `Rinex::merge_boundaries` (lib.rs:441): for each header comment
containing "FILE MERGE", byte-split at offset 40, trim, and parse with
`"%Y%m%d %h%m%s UTC"`; unparseable content is silently skipped.  (The
source's `split_at(40)` would panic on a matching comment shorter than
40 bytes; emitted markers are always longer.) -/
def Rinex.mergeBoundaries (r : Rinex) : List Int :=
  r.header.comments.filterMap (fun s =>
    if strContains s "FILE MERGE" then
      parseMergeDatetime (trimChars (s.data.drop 40))
    else none)

/-- One retained slice of `split_merged_records`: entries in
`[lo, b)`. -/
def retainRange (lo b : Int) (rec : List (Epoch × α)) : List (Epoch × α) :=
  rec.filter (fun kv => decide (lo ≤ kv.1.date) && decide (kv.1.date < b))

/-- One loop iteration of `split_merged_records`: clone-and-retain on
the active variant (`none` is the `todo!` on other variants). -/
def splitOne (ty : RinexType) (rec : Record) (lo b : Int) : Option Record :=
  match ty, rec with
  | .NavigationData, .navR l => some (.navR (retainRange lo b l))
  | .ObservationData, .obsR l => some (.obsR (retainRange lo b l))
  | .MeteoData, .meteoR l => some (.meteoR (retainRange lo b l))
  | .IonosphereMaps, .ionexR l => some (.ionexR (retainRange lo b l))
  | _, _ => none

def splitGo (ty : RinexType) (rec : Record) : Int → List Int → Option (List Record)
  | _, [] => some []
  | lo, b :: bs =>
    match splitOne ty rec lo b with
    | none => none
    | some r0 => (splitGo ty rec b bs).map (fun l => r0 :: l)

/-- `Rinex::split_merged_records` (lib.rs:477): one retained slice per
boundary, each covering `[previous boundary, boundary)` with the first
epoch's date as the initial lower bound; `epochs()[0]` is indexed before
the loop, so an empty record panics (`none`) even with no boundaries. -/
def Rinex.splitMergedRecords (r : Rinex) : Option (List Record) :=
  match r.epochs with
  | none => none
  | some [] => none
  | some (e0 :: _) => splitGo r.header.rinexType r.record e0.date r.mergeBoundaries

/-- First merge operand: a single-epoch Observation `Rinex`
(2023-01-01T00:00:00 UTC, Unix 1672531200). -/
def rnxA : Rinex :=
  Rinex.mk ⟨.ObservationData, [], some 0⟩ []
    (.obsR [(⟨1672531200, 0⟩, (none, []))])

/-- Second merge operand: a single-epoch Observation `Rinex` one day
later (2023-01-02T00:00:00 UTC, Unix 1672617600). -/
def rnxB : Rinex :=
  Rinex.mk ⟨.ObservationData, [], some 0⟩ []
    (.obsR [(⟨1672617600, 0⟩, (none, []))])

/-- The merge of the two operands, stamped with version "0.0.25" at
wall-clock 2023-01-02 12:00:00 UTC. -/
def mergedAB : Option Rinex :=
  match rnxA.mergeMut rnxB "0.0.25" ⟨2023, 1, 2, 12, 0, 0⟩ with
  | some (.ok m) => some m
  | _ => none

/-- C1: after merging two non-empty single-epoch Observation records,
the merged value spans both inputs and carries a FILE MERGE header
comment, yet `merge_boundaries()` recovers NO timestamp from it — the
reader's parse format `"%Y%m%d %h%m%s UTC"` (month-name and
Unix-timestamp items) never matches the `"%Y%m%d %H%M%S"` text the
writer emits — so `split_merged_records()` returns zero sub-records
instead of the two the claim requires. -/
theorem c1_merge_boundaries_never_parse :
    mergedAB.map (fun m => m.header.comments.any (fun s => strContains s "FILE MERGE"))
      = some true
    ∧ mergedAB.map (fun m => m.record.epochKeys) =
        some [⟨1672531200, 0⟩, ⟨1672617600, 0⟩]
    ∧ mergedAB.map Rinex.mergeBoundaries = some []
    ∧ (mergedAB.bind Rinex.splitMergedRecords).map List.length = some 0 :=
  ⟨rfl, rfl, rfl, rfl⟩

/-- C2: after the same successful merge of two non-empty records,
`is_merged()` on the merged value returns `false`: `merge_mut` appends
the marker to the header comment list, but `is_merged` scans only the
record-section comment ledger. -/
theorem c2_is_merged_misses_marker :
    rnxA.record.isEmptyRec = false
    ∧ rnxB.record.isEmptyRec = false
    ∧ mergedAB.map (fun m => m.header.comments.any (fun s => strContains s "FILE MERGE"))
        = some true
    ∧ mergedAB.map Rinex.isMerged = some false :=
  ⟨rfl, rfl, rfl, rfl⟩

/-- A Clock-typed `Rinex` with an empty record and a header
merge-compatible with itself. -/
def rnxClk : Rinex :=
  Rinex.mk ⟨.ClockData, [], some 0⟩ [] (.clockR [])

/-- C4 counterexample: for Clock-typed values, `merge_mut` panics inside
`epochs()` even though `other`'s record is empty and the headers are
merge-compatible, so the claimed identity (`self` unchanged under a
successful return) fails as stated for "every Rinex". -/
theorem c4_counterexample_clock_merge_panics :
    rnxClk.header.mergeMut rnxClk.header = .ok rnxClk.header
    ∧ rnxClk.record.isEmptyRec = true
    ∧ rnxClk.mergeMut rnxClk "0.0.25" ⟨2023, 1, 2, 12, 0, 0⟩ = none
    ∧ ¬ ∃ m, rnxClk.mergeMut rnxClk "0.0.25" ⟨2023, 1, 2, 12, 0, 0⟩
        = some (.ok m) := by
  refine ⟨rfl, rfl, rfl, ?_⟩
  rintro ⟨m, hm⟩
  rw [show rnxClk.mergeMut rnxClk "0.0.25" ⟨2023, 1, 2, 12, 0, 0⟩ = none from rfl] at hm
  exact Option.noConfusion hm

/-- C4 (amended): the merge identity restricted to the four
epoch-indexed record types: with merge-compatible headers, merging an
empty `other` leaves `self`'s record and both comment lists unchanged
with no marker inserted, and merging into an empty `self` replaces its
record with exactly `other`'s record, again with no marker inserted. -/
theorem c4_merge_identity_epoch_indexed (a b : Rinex) (version : String)
    (now : DateTime)
    (hwa : a.typeMatches = true) (hwb : b.typeMatches = true)
    (htya : a.header.rinexType ≠ .ClockData ∧ a.header.rinexType ≠ .AntennaData)
    (hcompat : a.header.rinexType = b.header.rinexType ∧
      a.header.constellation = b.header.constellation) :
    (b.record.isEmptyRec = true →
      ∃ m, a.mergeMut b version now = some (.ok m)
        ∧ m.record = a.record
        ∧ m.header.comments = a.header.comments
        ∧ m.comments = a.comments)
    ∧ (a.record.isEmptyRec = true →
      ∃ m, a.mergeMut b version now = some (.ok m)
        ∧ m.record = b.record
        ∧ m.header.comments = a.header.comments
        ∧ m.comments = a.comments) := by
  obtain ⟨⟨tya, cma, cona⟩, rca, recA⟩ := a
  obtain ⟨⟨tyb, cmb, conb⟩, rcb, recB⟩ := b
  have hmerge := headerMergeMut_ok _ _ hcompat
  have htyeq : tya = tyb := hcompat.1
  subst htyeq
  cases tya <;> cases recA <;> cases recB <;>
    first
    | (rename_i la lb
       constructor
       · intro hb
         have hlb : lb = [] := List.length_eq_zero.mp
           (by simpa [Record.isEmptyRec, Record.entryCount] using hb)
         subst hlb
         by_cases hla : la = []
         · subst hla
           unfold Rinex.mergeMut
           rw [hmerge]
           exact ⟨_, rfl, rfl, rfl, rfl⟩
         · have hlen0 : ¬ (List.map Prod.fst la).length = 0 := by
             simpa using hla
           unfold Rinex.mergeMut
           rw [hmerge]
           dsimp only [Rinex.epochs]
           rw [if_neg hlen0]
           exact ⟨_, rfl, rfl, rfl, rfl⟩
       · intro ha
         have hla : la = [] := List.length_eq_zero.mp
           (by simpa [Record.isEmptyRec, Record.entryCount] using ha)
         subst hla
         unfold Rinex.mergeMut
         rw [hmerge]
         exact ⟨_, rfl, rfl, rfl, rfl⟩)
    | exact absurd rfl htya.1
    | exact absurd rfl htya.2
    | (simp [Rinex.typeMatches] at hwa
       done)
    | (simp [Rinex.typeMatches] at hwb
       done)

/-- An Observation `Rinex` with an empty record and a header compatible
with `rnxA`'s. -/
def rnxObsEmpty : Rinex :=
  Rinex.mk ⟨.ObservationData, [], some 0⟩ [] (.obsR [])

/-- Concrete instantiation of the amended merge identity on `rnxA` and
an empty Observation operand. -/
theorem c4_merge_identity_epoch_indexed_witness :
    (rnxObsEmpty.record.isEmptyRec = true →
      ∃ m, rnxA.mergeMut rnxObsEmpty "0.0.25" ⟨2023, 1, 2, 12, 0, 0⟩ = some (.ok m)
        ∧ m.record = rnxA.record
        ∧ m.header.comments = rnxA.header.comments
        ∧ m.comments = rnxA.comments)
    ∧ (rnxA.record.isEmptyRec = true →
      ∃ m, rnxA.mergeMut rnxObsEmpty "0.0.25" ⟨2023, 1, 2, 12, 0, 0⟩ = some (.ok m)
        ∧ m.record = rnxObsEmpty.record
        ∧ m.header.comments = rnxA.header.comments
        ∧ m.comments = rnxA.comments) :=
  c4_merge_identity_epoch_indexed rnxA rnxObsEmpty "0.0.25" ⟨2023, 1, 2, 12, 0, 0⟩
    rfl rfl ⟨by decide, by decide⟩ ⟨rfl, rfl⟩

/-- Rust `str::starts_with(<one-letter pattern>)`. -/
def codeStartsWith (ch : Char) (s : String) : Bool :=
  match s.data with
  | [] => false
  | c0 :: _ => c0 = ch

/-- `is_pseudo_range_obs_code!` (lib.rs:49): "C" (standard) or "P"
(old-fashioned non-GPS) prefix. -/
def isPseudoRangeCode (c : String) : Bool :=
  codeStartsWith 'C' c || codeStartsWith 'P' c

/-- `is_phase_carrier_obs_code!` (lib.rs:59): "L" prefix. -/
def isPhaseCarrierCode (c : String) : Bool := codeStartsWith 'L' c

/-- The innermost loop of the `pseudo_ranges` / `carrier_phases` scans
(lib.rs:1463 / lib.rs:1547): (code, raw value) pairs whose code matches
the class predicate. -/
def selectCodes (p : String → Bool) (obs : List (String × ObservationData)) :
    List (String × ℚ) :=
  obs.filterMap (fun cd => if p cd.1 then some (cd.1, cd.2.obs) else none)

/-- Per-vehicle stage: vehicles with at least one matching code. -/
def selectSv (p : String → Bool)
    (svs : List (Sv × List (String × ObservationData))) :
    List (Sv × List (String × ℚ)) :=
  svs.filterMap (fun svo =>
    if (selectCodes p svo.2).isEmpty then none else some (svo.1, selectCodes p svo.2))

/-- Per-epoch stage: epochs with at least one contributing vehicle. -/
def obsCodeSelect (p : String → Bool) (rec : List (Epoch × ObsEpochValue)) :
    List (Epoch × List (Sv × List (String × ℚ))) :=
  rec.filterMap (fun ev =>
    if (selectSv p ev.2.2).isEmpty then none else some (ev.1, selectSv p ev.2.2))

/-- `Rinex::pseudo_ranges` (lib.rs:1463): empty for non-observation
types; `none` is the `as_obs().unwrap()` panic on a type/variant
mismatch. -/
def Rinex.pseudoRanges (r : Rinex) :
    Option (List (Epoch × List (Sv × List (String × ℚ)))) :=
  if r.header.rinexType = .ObservationData then
    match r.record with
    | .obsR rec => some (obsCodeSelect isPseudoRangeCode rec)
    | _ => none
  else some []

/-- `Rinex::carrier_phases` (lib.rs:1547). -/
def Rinex.carrierPhases (r : Rinex) :
    Option (List (Epoch × List (Sv × List (String × ℚ)))) :=
  if r.header.rinexType = .ObservationData then
    match r.record with
    | .obsR rec => some (obsCodeSelect isPhaseCarrierCode rec)
    | _ => none
  else some []

/-- The per-vehicle combination step of `iono_free_carrier_phases`
(lib.rs:1585): filter the already-extracted (code, value) list by the
carrier-phase prefix, keep exactly the FIRST TWO matches, resolve each
code's nominal carrier frequency in MHz through the
`channel::Channel::from_observable` lookup (an external collaborator,
passed as `lookup`), and, when both resolve, form
(f0²·v0 − f1²·v1)/(f0² − f1²) with f = MHz·10⁶; `f64` arithmetic is
embedded as exact rational arithmetic. -/
def ionoFreeCompute (lookup : Nat → String → Option ℚ) (con : Nat)
    (obs : List (String × ℚ)) : Option ℚ :=
  if 1 < (obs.filter (fun cv => isPhaseCarrierCode cv.1)).length then
    match ((obs.filter (fun cv => isPhaseCarrierCode cv.1)).take 2).filterMap
        (fun cv => lookup con cv.1),
      ((obs.filter (fun cv => isPhaseCarrierCode cv.1)).take 2).map Prod.snd with
    | [c0, c1], v0 :: v1 :: _ =>
        some (((c0 * 1000000) ^ 2 * v0 - (c1 * 1000000) ^ 2 * v1) /
          ((c0 * 1000000) ^ 2 - (c1 * 1000000) ^ 2))
    | _, _ => none
  else none

/-- The epoch/vehicle sweep of `iono_free_carrier_phases`
(lib.rs:1583): note it runs over the PSEUDO-RANGE extraction. -/
def ionoFreeScan (lookup : Nat → String → Option ℚ)
    (pr : List (Epoch × List (Sv × List (String × ℚ)))) :
    List (Epoch × List (Sv × ℚ)) :=
  pr.filterMap (fun esv =>
    if (esv.2.filterMap (fun svo =>
        (ionoFreeCompute lookup svo.1.constellation svo.2).map
          (fun q => (svo.1, q)))).isEmpty
    then none
    else some (esv.1, esv.2.filterMap (fun svo =>
      (ionoFreeCompute lookup svo.1.constellation svo.2).map
        (fun q => (svo.1, q)))))

/-- `Rinex::iono_free_carrier_phases` (lib.rs:1580): the source scans
`self.pseudo_ranges()` — not `carrier_phases()` — before filtering for
L-prefixed codes. -/
def Rinex.ionoFreeCarrierPhases (r : Rinex)
    (lookup : Nat → String → Option ℚ) :
    Option (List (Epoch × List (Sv × ℚ))) :=
  r.pseudoRanges.map (fun pr => ionoFreeScan lookup pr)

theorem phase_code_not_pr (c : String) (h : isPseudoRangeCode c = true) :
    isPhaseCarrierCode c = false := by
  rcases hc : c.data with _ | ⟨c0, t⟩
  · unfold isPseudoRangeCode codeStartsWith at h
    rw [hc] at h
    simp at h
  · unfold isPhaseCarrierCode codeStartsWith
    rw [hc]
    unfold isPseudoRangeCode codeStartsWith at h
    rw [hc] at h
    simp only [Bool.or_eq_true, decide_eq_true_eq] at h
    rcases h with h | h <;> subst h <;> rfl

theorem mem_selectCodes_pred (p : String → Bool)
    (obs : List (String × ObservationData)) (cv : String × ℚ)
    (h : cv ∈ selectCodes p obs) : p cv.1 = true := by
  unfold selectCodes at h
  rcases List.mem_filterMap.mp h with ⟨cd, _, hsome⟩
  by_cases hp : p cd.1
  · rw [if_pos hp] at hsome
    injection hsome with hsome
    subst hsome
    exact hp
  · rw [if_neg hp] at hsome
    exact Option.noConfusion hsome

theorem mem_obsCodeSelect_pred (p : String → Bool)
    (rec : List (Epoch × ObsEpochValue)) :
    ∀ esv ∈ obsCodeSelect p rec, ∀ svo ∈ esv.2, ∀ cv ∈ svo.2, p cv.1 = true := by
  intro esv hesv svo hsvo cv hcv
  unfold obsCodeSelect at hesv
  rcases List.mem_filterMap.mp hesv with ⟨ev, _, hsome⟩
  by_cases hm : (selectSv p ev.2.2).isEmpty
  · rw [if_pos hm] at hsome
    exact Option.noConfusion hsome
  · rw [if_neg hm] at hsome
    injection hsome with hsome
    subst hsome
    rcases List.mem_filterMap.mp hsvo with ⟨svo0, _, hsome2⟩
    by_cases hv : (selectCodes p svo0.2).isEmpty
    · rw [if_pos hv] at hsome2
      exact Option.noConfusion hsome2
    · rw [if_neg hv] at hsome2
      injection hsome2 with hsome2
      subst hsome2
      exact mem_selectCodes_pred p svo0.2 cv hcv

theorem ionoFreeCompute_of_pr_codes (lookup : Nat → String → Option ℚ)
    (con : Nat) (obs : List (String × ℚ))
    (h : ∀ cv ∈ obs, isPseudoRangeCode cv.1 = true) :
    ionoFreeCompute lookup con obs = none := by
  unfold ionoFreeCompute
  have hfil : obs.filter (fun cv => isPhaseCarrierCode cv.1) = [] := by
    rw [List.filter_eq_nil_iff]
    intro cv hcv
    simp [phase_code_not_pr cv.1 (h cv hcv)]
  rw [hfil]
  rfl

/-- `iono_free_carrier_phases` can never produce anything: the codes it
scans come from the pseudo-range extraction (C/P prefixes) and the
combination keeps only L-prefixed ones. -/
theorem ionoFreeCarrierPhases_empty (r : Rinex)
    (lookup : Nat → String → Option ℚ)
    (res : List (Epoch × List (Sv × ℚ)))
    (h : r.ionoFreeCarrierPhases lookup = some res) : res = [] := by
  unfold Rinex.ionoFreeCarrierPhases Rinex.pseudoRanges at h
  have hscan : ∀ pr, (∀ esv ∈ pr, ∀ svo ∈ esv.2, ∀ cv ∈ svo.2,
      isPseudoRangeCode cv.1 = true) → ionoFreeScan lookup pr = [] := by
    intro pr hcodes
    unfold ionoFreeScan
    rw [List.filterMap_eq_nil_iff]
    intro esv hesv
    have hin : (esv.2.filterMap (fun svo =>
        (ionoFreeCompute lookup svo.1.constellation svo.2).map
          (fun q => (svo.1, q)))) = [] := by
      rw [List.filterMap_eq_nil_iff]
      intro svo hsvo
      rw [ionoFreeCompute_of_pr_codes lookup svo.1.constellation svo.2
        (hcodes esv hesv svo hsvo)]
      rfl
    rw [if_pos (by rw [hin]; rfl)]
  by_cases hobs : r.header.rinexType = .ObservationData
  · rw [if_pos hobs] at h
    cases hrec : r.record with
    | obsR rec =>
      rw [hrec] at h
      simp only [Option.map_some'] at h
      injection h with h
      rw [← h]
      exact hscan _ (mem_obsCodeSelect_pred isPseudoRangeCode rec)
    | navR rec => rw [hrec] at h; exact Option.noConfusion h
    | meteoR rec => rw [hrec] at h; exact Option.noConfusion h
    | clockR rec => rw [hrec] at h; exact Option.noConfusion h
    | ionexR rec => rw [hrec] at h; exact Option.noConfusion h
    | antexR rec => rw [hrec] at h; exact Option.noConfusion h
  · rw [if_neg hobs] at h
    simp only [Option.map_some'] at h
    injection h with h
    rw [← h]
    rfl

/-- The channel lookup for the concrete fixture: GPS (tag 0) L1C/L2C
resolve to distinct carrier frequencies. -/
def lookupC : Nat → String → Option ℚ := fun con code =>
  if con = 0 ∧ code = "L1C" then some 1575
  else if con = 0 ∧ code = "L2C" then some 1227
  else none

/-- An Observation record with one epoch and one vehicle carrying two
carrier-phase observations on distinct, resolvable channels. -/
def rnxC : Rinex :=
  Rinex.mk ⟨.ObservationData, [], some 0⟩ []
    (.obsR [(⟨0, 0⟩, (none, [(⟨0, 1⟩,
      [("L1C", ⟨100, none, none⟩), ("L2C", ⟨100, none, none⟩)])]))])

/-- C3: on a record holding two carrier-phase codes that both resolve
through the channel lookup, `carrier_phases` extracts them, yet
`iono_free_carrier_phases` returns the empty map — the source scans
`pseudo_ranges()` (C/P prefixes, here empty) and then filters for
L-prefixed codes, so no vehicle/epoch can ever contribute. -/
theorem c3_iono_free_scans_pseudo_ranges :
    rnxC.carrierPhases =
      some [(⟨0, 0⟩, [(⟨0, 1⟩, [("L1C", (100 : ℚ)), ("L2C", (100 : ℚ))])])]
    ∧ lookupC 0 "L1C" = some 1575
    ∧ lookupC 0 "L2C" = some 1227
    ∧ rnxC.pseudoRanges = some []
    ∧ rnxC.ionoFreeCarrierPhases lookupC = some [] :=
  ⟨rfl, rfl, rfl, rfl, rfl⟩
